import Mathlib

/-!
Shallow embedding of `shared_utils/prompt_chaining_utils.py`
(`PromptChainManager.execute_sequential_chain`,
`PromptChainManager.execute_parallel_chains` and the nested
`run_single_prompt`), together with theorems checking the
specification's claims about them.

Modelling conventions:
* The language model (`chain.invoke`) is an oracle.  For the sequential
  executor it is a function of the invocation index (the executor invokes
  it once per attempt), the step's template string and the current input
  string; it returns `Except.ok output` for a normal return and
  `Except.error msg` when the call raises (msg = `str(e)`).
* A step configuration is the relevant part of the Python step dict:
  the template, the optional `"validators"` dict (modelled as an
  association list, as dict keys are unique and iterated in insertion
  order) and the optional single `"validator"` entry.
* Wall-clock timing fields (`execution_time`, performance metrics) are
  not modelled; no claim mentions them.
* Alongside the outcome the embedding returns the number of oracle
  invocations made and a trace with one record per attempt (the Python
  code appends one `step_log` to `chain_history` per attempt); the
  record's `vpairs` list mirrors the `validation_results` list built
  during that attempt, with one pair appended per validator actually
  invoked, exactly as the source appends a pair before testing it.
-/

namespace PromptChain

/-- Oracle for the sequential executor: invocation index, the step's
template, the current input. `Except.error` models a raised exception. -/
abbrev Llm := Nat → String → String → Except String String

/-- One step configuration (the fields of the Python step dict that the
executor reads). -/
structure Step where
  template : String
  validators : Option (List (String × (String → Bool)))
  validator : Option (String → Bool)

/-- The `step_result` dict appended to `results` on a successful step
(minus the timing field). -/
structure StepResult where
  step : Nat
  output : String
  validation_results : List (String × Bool)
  retry_count : Nat
  output_length : Nat
  deriving DecidableEq

/-- One attempt of one step, as observable from outside: which step,
which retry attempt, which validators were invoked (with their verdicts),
and whether the attempt succeeded. -/
structure AttemptRecord where
  step : Nat
  retry_attempt : Nat
  vpairs : List (String × Bool)
  success : Bool
  deriving DecidableEq

/-- The outcome dictionary of `execute_sequential_chain`: on success it
has `results` and `final_output` keys, on failure `error` and
`partial_results` (here the second argument of `failure`). -/
inductive SeqOutcome where
  | success (results : List StepResult) (final_output : String)
  | failure (error : String) (results_so_far : List StepResult)
  deriving DecidableEq

/-- The recorded step results, whichever key they sit under. -/
def SeqOutcome.resultsList : SeqOutcome → List StepResult
  | .success rs _ => rs
  | .failure _ rs => rs

/-- The `for validator_name, validator_func in step["validators"].items()`
loop: append a `(name, verdict)` pair for each validator invoked and
raise (return `some msg`) at the first failing one, leaving later
validators uninvoked. -/
def runNamedValidators (i : Nat) (result : String) :
    List (String × (String → Bool)) → List (String × Bool) × Option String
  | [] => ([], none)
  | (nm, f) :: rest =>
    if f result then
      let r := runNamedValidators i result rest
      ((nm, true) :: r.1, r.2)
    else
      ([(nm, false)], some ("Step " ++ toString (i + 1) ++ " failed " ++ nm ++ " validation"))

/-- Result of the `try:` body of one attempt: the generated output or the
raised message, plus the `validation_results` pairs built during the
attempt. -/
structure AttemptOutcome where
  res : Except String String
  vpairs : List (String × Bool)

/-- One attempt of step `i` (0-based) on `input`, using the oracle at
invocation index `c`: invoke the chain, then run the step's validators
exactly as the source does. -/
def attempt (llm : Llm) (i : Nat) (st : Step) (input : String) (c : Nat) : AttemptOutcome :=
  match llm c st.template input with
  | .error e => { res := .error e, vpairs := [] }
  | .ok result =>
    match st.validators with
    | some vs =>
      match runNamedValidators i result vs with
      | (pairs, none) => { res := .ok result, vpairs := pairs }
      | (pairs, some e) => { res := .error e, vpairs := pairs }
    | none =>
      match st.validator with
      | some f =>
        if f result then { res := .ok result, vpairs := [("default", true)] }
        else { res := .error ("Step " ++ toString (i + 1) ++ " validation failed"),
               vpairs := [("default", false)] }
      | none => { res := .ok result, vpairs := [] }

/-- The `while retry_count <= self.max_retries and not step_successful`
loop for one step.  Arguments after the input string: current
`retry_count`, current invocation count, and fuel (the loop is entered
with fuel `mr + 1`; the source returns from inside the loop when
`retry_count` would exceed `max_retries`, so the fuel-0 branch is never
reached from the entry point).  Returns the step result or the final
attempt's error, the new invocation count, and one record per attempt. -/
def stepLoop (llm : Llm) (mr i : Nat) (st : Step) (input : String) :
    Nat → Nat → Nat → Except String StepResult × Nat × List AttemptRecord
  | _, cc, 0 => (Except.error "retry budget exhausted", cc, [])
  | retry, cc, fuel + 1 =>
    let a := attempt llm i st input cc
    match a.res with
    | Except.ok output =>
      (Except.ok { step := i + 1, output := output, validation_results := a.vpairs,
                   retry_count := retry, output_length := output.length },
       cc + 1,
       [{ step := i + 1, retry_attempt := retry, vpairs := a.vpairs, success := true }])
    | Except.error e =>
      if retry + 1 > mr then
        (Except.error e, cc + 1,
         [{ step := i + 1, retry_attempt := retry, vpairs := a.vpairs, success := false }])
      else
        let r := stepLoop llm mr i st input (retry + 1) (cc + 1) fuel
        (r.1, r.2.1,
         { step := i + 1, retry_attempt := retry, vpairs := a.vpairs, success := false } :: r.2.2)

/-- The `for i, step in enumerate(chain_steps)` loop.  `i` is the index
of the first remaining step, `current` the current input, `results` the
accumulated step results, `cc` the invocation count so far.  Returns the
outcome, final invocation count, and attempt records produced by the
remaining steps. -/
def seqLoop (llm : Llm) (mr : Nat) :
    List Step → Nat → String → List StepResult → Nat →
    SeqOutcome × Nat × List AttemptRecord
  | [], _, current, results, cc => (.success results current, cc, [])
  | st :: rest, i, current, results, cc =>
    match stepLoop llm mr i st current 0 cc (mr + 1) with
    | (Except.ok sr, cc2, recs) =>
      let r := seqLoop llm mr rest (i + 1) sr.output (results ++ [sr]) cc2
      (r.1, r.2.1, recs ++ r.2.2)
    | (Except.error e, cc2, recs) =>
      (.failure ("Chain failed at step " ++ toString (i + 1) ++ " after " ++
                 toString (mr + 1) ++ " attempts: " ++ e) results,
       cc2, recs)

/-- `PromptChainManager.execute_sequential_chain` with `max_retries = mr`:
returns the outcome dictionary plus the observable execution trace (number
of oracle invocations, one record per attempt). -/
def execute_sequential_chain (llm : Llm) (mr : Nat) (chain_steps : List Step)
    (initial_input : String) : SeqOutcome × Nat × List AttemptRecord :=
  seqLoop llm mr chain_steps 0 initial_input [] 0

/-- Oracle for the parallel executor: each task invokes the chain once
with its template and the variable bindings (`{"document": document}` for
a task, `{"analysis_results": ..., "original_document": ...}` for the
synthesis call). `Except.error` models a raised exception. -/
abbrev PLlm := String → List (String × String) → Except String String

/-- The dict returned by the nested `run_single_prompt` (minus timing):
on success it has an `output_length` key, on failure an `error` key. -/
structure TaskResult where
  name : String
  result : String
  success : Bool
  output_length : Option Nat
  error : Option String
  deriving DecidableEq

/-- The dict returned by `execute_parallel_chains` (minus timing
metrics). `success` is the top-level flag, `parallel_results` the
name-to-result-text mapping (an association list; the Python input is a
dict, so names are unique and insertion order is kept). -/
structure ParallelOutcome where
  success : Bool
  parallel_results : List (String × String)
  successful_count : Nat
  failed_count : Nat
  synthesis : Option String
  execution_details : List TaskResult
  max_workers_used : Nat
  deriving DecidableEq

/-- The nested `run_single_prompt`: invoke the chain once on the shared
document; catch a raise and turn it into a failed entry whose result text
is `"Error: " ++ msg`. -/
def run_single_prompt (llm : PLlm) (document nm template : String) : TaskResult :=
  match llm template [("document", document)] with
  | Except.ok result =>
    { name := nm, result := result, success := true,
      output_length := some result.length, error := none }
  | Except.error e =>
    { name := nm, result := "Error: " ++ e, success := false,
      output_length := none, error := some e }

/-- The `"\n\n".join(f"{name.upper()}:\n{result}" ...)` synthesis input. -/
def synthesisInput (rs : List (String × String)) : String :=
  String.intercalate "\n\n" (rs.map (fun p => p.1.toUpper ++ ":\n" ++ p.2))

/-- Body of `execute_parallel_chains` once the worker pool was created
successfully (tasks are independent, results are collected in submission
order, and the call joins all tasks, so the thread pool is observationally
a map over the task list).  Returns the outcome dict and whether a
synthesis invocation was made. -/
def parallelBody (llm : PLlm) (tasks : List (String × String)) (document : String)
    (synthesis_template : Option String) : ParallelOutcome × Bool :=
  let parallel_results := tasks.map (fun p => run_single_prompt llm document p.1 p.2)
  let results_dict := parallel_results.map (fun r => (r.name, r.result))
  let successful_results :=
    (parallel_results.filter (fun r => r.success)).map (fun r => (r.name, r.result))
  let syn : Option String × Bool :=
    match synthesis_template with
    | some st =>
      if st ≠ "" ∧ successful_results ≠ [] then
        match llm st [("analysis_results", synthesisInput successful_results),
                      ("original_document", document)] with
        | Except.ok s => (some s, true)
        | Except.error e => (some ("Synthesis failed: " ++ e), true)
      else (none, false)
    | none => (none, false)
  ({ success := true,
     parallel_results := results_dict,
     successful_count := successful_results.length,
     failed_count := parallel_results.length - successful_results.length,
     synthesis := syn.1,
     execution_details := parallel_results,
     max_workers_used := min tasks.length 4 }, syn.2)

/-- `PromptChainManager.execute_parallel_chains`: with an empty task dict
`max_workers = min(0, 4) = 0` and `ThreadPoolExecutor(max_workers=0)`
raises `ValueError` before any task runs; otherwise the body runs and the
method returns normally. -/
def execute_parallel_chains (llm : PLlm) (prompt_templates : List (String × String))
    (document : String) (synthesis_template : Option String) :
    Except String (ParallelOutcome × Bool) :=
  if prompt_templates.length = 0 then
    Except.error "max_workers must be greater than 0"
  else
    Except.ok (parallelBody llm prompt_templates document synthesis_template)

/-- Whether an `Except` value is a normal return. -/
def exceptOk {ε α : Type} : Except ε α → Bool
  | Except.ok _ => true
  | Except.error _ => false

/-- Reference description used to state the corrected claim C4: the
per-validator verdicts kept up to and including the first failing one. -/
def takeThroughFirstFail : List (String × Bool) → List (String × Bool)
  | [] => []
  | p :: rest => if p.2 then p :: takeThroughFirstFail rest else [p]

/-! ### Concrete oracles, steps and outcomes used by the witness theorems -/

/-- Deterministic generation function echoing its input with an OUT tag. -/
def okLlm : Llm := fun _ _ s => Except.ok ("OUT:" ++ s)

/-- Generation function whose call always raises. -/
def errLlm : Llm := fun _ _ _ => Except.error "boom"

/-- A step with no validators. -/
def plainStep : Step := { template := "t", validators := none, validator := none }

/-- A step whose single validator always returns false. -/
def falseStep : Step := { template := "t", validators := none, validator := some (fun _ => false) }

def alwaysTrue : String → Bool := fun _ => true

def alwaysFalse : String → Bool := fun _ => false

/-- A step with two named validators that both pass. -/
def twoValStep : Step :=
  { template := "t", validators := some [("a", alwaysTrue), ("b", alwaysTrue)], validator := none }

/-- A step with two named validators whose first always fails. -/
def cxStep : Step :=
  { template := "t", validators := some [("a", alwaysFalse), ("b", alwaysTrue)], validator := none }

/-- The step results of running `okLlm` over two plain steps from input
string IN. -/
def c1resList : List StepResult :=
  [{ step := 1, output := "OUT:in", validation_results := [], retry_count := 0, output_length := 6 },
   { step := 2, output := "OUT:OUT:in", validation_results := [], retry_count := 0, output_length := 10 }]

/-- Step results of the one-step prelude used in the C2 witness. -/
def c2preRes : List StepResult :=
  [{ step := 1, output := "OUT:in", validation_results := [], retry_count := 0, output_length := 6 }]

/-- Attempt trace of the one-step prelude used in the C2 witness. -/
def c2preTrace : List AttemptRecord :=
  [{ step := 1, retry_attempt := 0, vpairs := [], success := true }]

/-- Full attempt trace of the three-step run in the C2 witness. -/
def c2trace : List AttemptRecord :=
  [{ step := 1, retry_attempt := 0, vpairs := [], success := true },
   { step := 2, retry_attempt := 0, vpairs := [("default", false)], success := false },
   { step := 2, retry_attempt := 1, vpairs := [("default", false)], success := false }]

/-- Parallel oracle failing exactly on template TB. -/
def pMixLlm : PLlm := fun t _ => if t = "tb" then Except.error "boom" else Except.ok "ok"

/-- Parallel oracle that always raises. -/
def pErrLlm : PLlm := fun _ _ => Except.error "boom"

/-- Parallel oracle that always returns. -/
def pOkLlm : PLlm := fun _ _ => Except.ok "R"

/-- Task results of `pMixLlm` on tasks a (ok) and b (raises). -/
def pMixDetails : List TaskResult :=
  [{ name := "a", result := "ok", success := true, output_length := some 2, error := none },
   { name := "b", result := "Error: boom", success := false, output_length := none, error := some "boom" }]

/-- Outcome of the mixed two-task parallel run with no synthesis template. -/
def pMixOutcome : ParallelOutcome :=
  { success := true,
    parallel_results := [("a", "ok"), ("b", "Error: boom")],
    successful_count := 1,
    failed_count := 1,
    synthesis := none,
    execution_details := pMixDetails,
    max_workers_used := 2 }

/-- Outcome of a one-task parallel run whose only task raises, with a
synthesis template supplied. -/
def pErrOutcome : ParallelOutcome :=
  { success := true,
    parallel_results := [("a", "Error: boom")],
    successful_count := 0,
    failed_count := 1,
    synthesis := none,
    execution_details :=
      [{ name := "a", result := "Error: boom", success := false,
         output_length := none, error := some "boom" }],
    max_workers_used := 1 }

/-! ### Lemmas about one step's retry loop -/

lemma stepLoop_cc (llm : Llm) (mr i : Nat) (st : Step) (input : String) :
    ∀ fuel retry cc,
      (stepLoop llm mr i st input retry cc fuel).2.1 =
        cc + (stepLoop llm mr i st input retry cc fuel).2.2.length := by
  intro fuel
  induction fuel with
  | zero => intro retry cc; simp [stepLoop]
  | succ n ih =>
    intro retry cc
    simp only [stepLoop]
    split
    · simp
    · split
      · simp
      · have h := ih (retry + 1) (cc + 1)
        simp only [List.length_cons]
        omega

lemma stepLoop_recs (llm : Llm) (mr i : Nat) (st : Step) (input : String) :
    ∀ fuel retry cc r,
      r ∈ (stepLoop llm mr i st input retry cc fuel).2.2 → r.step = i + 1 := by
  intro fuel
  induction fuel with
  | zero => intro retry cc r h; simp [stepLoop] at h
  | succ n ih =>
    intro retry cc r h
    simp only [stepLoop] at h
    split at h
    · simp at h; subst h; rfl
    · split at h
      · simp at h; subst h; rfl
      · rcases List.mem_cons.mp h with h1 | h1
        · subst h1; rfl
        · exact ih (retry + 1) (cc + 1) r h1

lemma stepLoop_ok_retry (llm : Llm) (mr i : Nat) (st : Step) (input : String) :
    ∀ fuel retry cc sr, retry ≤ mr →
      (stepLoop llm mr i st input retry cc fuel).1 = Except.ok sr →
      sr.step = i + 1 ∧ sr.retry_count ≤ mr := by
  intro fuel
  induction fuel with
  | zero => intro retry cc sr _ h; simp [stepLoop] at h
  | succ n ih =>
    intro retry cc sr hle h
    simp only [stepLoop] at h
    split at h
    · rw [Except.ok.injEq] at h
      subst h
      exact ⟨rfl, hle⟩
    · split at h
      · simp at h
      · exact ih (retry + 1) (cc + 1) sr (by omega) h

lemma stepLoop_error_recs (llm : Llm) (mr i : Nat) (st : Step) (input : String) :
    ∀ fuel retry cc e cc2 recs, retry + fuel = mr + 1 →
      stepLoop llm mr i st input retry cc fuel = (Except.error e, cc2, recs) →
      recs.length = fuel ∧ ∀ r ∈ recs, r.success = false := by
  intro fuel
  induction fuel with
  | zero =>
    intro retry cc e cc2 recs _ h
    simp only [stepLoop, Prod.mk.injEq] at h
    obtain ⟨-, -, h3⟩ := h
    subst h3
    simp
  | succ n ih =>
    intro retry cc e cc2 recs hf h
    simp only [stepLoop] at h
    split at h
    · simp at h
    · split at h
      · rename_i hgt
        simp only [Prod.mk.injEq] at h
        obtain ⟨-, -, h3⟩ := h
        subst h3
        refine ⟨by simpa using by omega, ?_⟩
        intro r hr
        simp at hr
        subst hr
        rfl
      · rename_i hgt
        simp only [Prod.mk.injEq] at h
        obtain ⟨h1, h2, h3⟩ := h
        have hfull : stepLoop llm mr i st input (retry + 1) (cc + 1) n =
            (Except.error e, (stepLoop llm mr i st input (retry + 1) (cc + 1) n).2.1,
             (stepLoop llm mr i st input (retry + 1) (cc + 1) n).2.2) := by
          rw [← h1]
        have h4 := ih (retry + 1) (cc + 1) e _ _ (by omega) hfull
        subst h3
        refine ⟨by simp [h4.1], ?_⟩
        intro r hr
        rcases List.mem_cons.mp hr with hh | hh
        · subst hh; rfl
        · exact h4.2 r hh

lemma stepLoop_allfail (llm : Llm) (mr i : Nat) (st : Step) (input : String)
    (hfail : ∀ c, exceptOk (attempt llm i st input c).res = false) :
    ∀ fuel retry cc, exceptOk (stepLoop llm mr i st input retry cc fuel).1 = false := by
  intro fuel
  induction fuel with
  | zero => intro retry cc; simp [stepLoop, exceptOk]
  | succ n ih =>
    intro retry cc
    simp only [stepLoop]
    split
    · rename_i out hout
      have := hfail cc
      rw [hout] at this
      simp [exceptOk] at this
    · split
      · simp [exceptOk]
      · exact ih (retry + 1) (cc + 1)

/-! ### Lemmas about the sequential chain loop -/

lemma seqLoop_success (llm : Llm) (mr : Nat) :
    ∀ (steps : List Step) (i : Nat) (cur : String) (res0 : List StepResult) (cc : Nat)
      (res : List StepResult) (fin : String) (cc2 : Nat) (tr : List AttemptRecord),
      seqLoop llm mr steps i cur res0 cc = (SeqOutcome.success res fin, cc2, tr) →
      ∃ suf,
        res = res0 ++ suf ∧
        suf.length = steps.length ∧
        (∀ j r, suf.get? j = some r → r.step = i + j + 1) ∧
        (∀ r ∈ suf, r.retry_count ≤ mr) ∧
        (suf = [] → fin = cur) ∧
        (∀ last, suf.getLast? = some last → fin = last.output) ∧
        cc2 = cc + tr.length ∧
        (∀ r ∈ tr, i + 1 ≤ r.step ∧ r.step ≤ i + steps.length) := by
  intro steps
  induction steps with
  | nil =>
    intro i cur res0 cc res fin cc2 tr h
    simp only [seqLoop, Prod.mk.injEq, SeqOutcome.success.injEq] at h
    obtain ⟨⟨h1, h2⟩, h3, h4⟩ := h
    subst h1; subst h2; subst h3; subst h4
    refine ⟨[], by simp, rfl, ?_, by simp, fun _ => rfl, ?_, by simp, by simp⟩
    · intro j r hj; simp at hj
    · intro last hl; simp at hl
  | cons st rest ih =>
    intro i cur res0 cc res fin cc2 tr h
    simp only [seqLoop] at h
    split at h
    · rename_i sr cc1 recs heq
      simp only [Prod.mk.injEq] at h
      obtain ⟨h1, h2, h3⟩ := h
      set r := seqLoop llm mr rest (i + 1) sr.output (res0 ++ [sr]) cc1 with hr
      have hfull : seqLoop llm mr rest (i + 1) sr.output (res0 ++ [sr]) cc1 =
          (SeqOutcome.success res fin, r.2.1, r.2.2) := by
        rw [← h1]
      obtain ⟨suf, i1, i2, i3, i4, i5, i6, i7, i8⟩ :=
        ih (i + 1) sr.output (res0 ++ [sr]) cc1 res fin r.2.1 r.2.2 hfull
      have hok : (stepLoop llm mr i st cur 0 cc (mr + 1)).1 = Except.ok sr := by rw [heq]
      have hsr := stepLoop_ok_retry llm mr i st cur (mr + 1) 0 cc sr (Nat.zero_le mr) hok
      have hcc1 : cc1 = cc + recs.length := by
        have := stepLoop_cc llm mr i st cur (mr + 1) 0 cc
        rw [heq] at this
        exact this
      have hrecs : ∀ q ∈ recs, q.step = i + 1 := by
        intro q hq
        exact stepLoop_recs llm mr i st cur (mr + 1) 0 cc q (by rw [heq]; exact hq)
      refine ⟨sr :: suf, ?_, ?_, ?_, ?_, ?_, ?_, ?_, ?_⟩
      · rw [i1, List.append_assoc]
        rfl
      · simp [i2]
      · intro j q hj
        cases j with
        | zero =>
          simp at hj
          subst hj
          simpa using hsr.1
        | succ j =>
          simp only [List.get?_cons_succ] at hj
          have := i3 j q hj
          omega
      · intro q hq
        rcases List.mem_cons.mp hq with hh | hh
        · subst hh; exact hsr.2
        · exact i4 q hh
      · intro hcontra
        exact absurd hcontra (by simp)
      · intro last hl
        cases suf with
        | nil =>
          simp at hl
          subst hl
          exact i5 rfl
        | cons a t =>
          rw [List.getLast?_cons_cons] at hl
          exact i6 last hl
      · subst h3
        rw [← h2, i7, hcc1]
        simp [List.length_append]
        omega
      · subst h3
        intro q hq
        rcases List.mem_append.mp hq with hh | hh
        · have := hrecs q hh
          simp [this]
        · have := i8 q hh
          constructor <;> [omega; (simp only [List.length_cons]; omega)]
    · rename_i e cc1 recs heq
      simp only [Prod.mk.injEq] at h
      exact absurd h.1 (by simp)

lemma filter_eq_nil_of_false {α : Type} (p : α → Bool) :
    ∀ l : List α, (∀ a ∈ l, p a = false) → l.filter p = [] := by
  intro l h
  simp only [List.filter_eq_nil_iff]
  intro a ha
  simp [h a ha]

lemma filter_eq_self_of_true {α : Type} (p : α → Bool) :
    ∀ l : List α, (∀ a ∈ l, p a = true) → l.filter p = l := by
  intro l h
  simp only [List.filter_eq_self]
  exact h

lemma seqLoop_failure (llm : Llm) (mr : Nat) :
    ∀ (steps : List Step) (i : Nat) (cur : String) (res0 : List StepResult) (cc : Nat)
      (e : String) (resF : List StepResult) (cc2 : Nat) (tr : List AttemptRecord),
      seqLoop llm mr steps i cur res0 cc = (SeqOutcome.failure e resF, cc2, tr) →
      ∃ suf e0,
        resF = res0 ++ suf ∧
        e = "Chain failed at step " ++ toString (i + suf.length + 1) ++ " after " ++
            toString (mr + 1) ++ " attempts: " ++ e0 ∧
        (∀ j r, suf.get? j = some r → r.step = i + j + 1) ∧
        (∀ r ∈ suf, r.retry_count ≤ mr) ∧
        cc2 = cc + tr.length ∧
        (∀ r ∈ tr, i + 1 ≤ r.step ∧ r.step ≤ i + suf.length + 1) ∧
        (tr.filter (fun r => r.step == i + suf.length + 1)).length = mr + 1 ∧
        (∀ r ∈ tr, r.step = i + suf.length + 1 → r.success = false) := by
  intro steps
  induction steps with
  | nil =>
    intro i cur res0 cc e resF cc2 tr h
    simp only [seqLoop, Prod.mk.injEq] at h
    exact absurd h.1 (by simp)
  | cons st rest ih =>
    intro i cur res0 cc e resF cc2 tr h
    simp only [seqLoop] at h
    split at h
    · rename_i sr cc1 recs heq
      simp only [Prod.mk.injEq] at h
      obtain ⟨h1, h2, h3⟩ := h
      set r := seqLoop llm mr rest (i + 1) sr.output (res0 ++ [sr]) cc1 with hr
      have hfull : seqLoop llm mr rest (i + 1) sr.output (res0 ++ [sr]) cc1 =
          (SeqOutcome.failure e resF, r.2.1, r.2.2) := by
        rw [← h1]
      obtain ⟨suf, e0, i1, i2, i3, i4, i5, i6, i7, i8⟩ :=
        ih (i + 1) sr.output (res0 ++ [sr]) cc1 e resF r.2.1 r.2.2 hfull
      have hok : (stepLoop llm mr i st cur 0 cc (mr + 1)).1 = Except.ok sr := by rw [heq]
      have hsr := stepLoop_ok_retry llm mr i st cur (mr + 1) 0 cc sr (Nat.zero_le mr) hok
      have hcc1 : cc1 = cc + recs.length := by
        have := stepLoop_cc llm mr i st cur (mr + 1) 0 cc
        rw [heq] at this
        exact this
      have hrecs : ∀ q ∈ recs, q.step = i + 1 := by
        intro q hq
        exact stepLoop_recs llm mr i st cur (mr + 1) 0 cc q (by rw [heq]; exact hq)
      have harith : (i + 1) + suf.length + 1 = i + (sr :: suf).length + 1 := by
        simp only [List.length_cons]
        omega
      refine ⟨sr :: suf, e0, ?_, ?_, ?_, ?_, ?_, ?_, ?_, ?_⟩
      · rw [i1, List.append_assoc]
        rfl
      · rw [i2, harith]
      · intro j q hj
        cases j with
        | zero =>
          simp at hj
          subst hj
          simpa using hsr.1
        | succ j =>
          simp only [List.get?_cons_succ] at hj
          have := i3 j q hj
          omega
      · intro q hq
        rcases List.mem_cons.mp hq with hh | hh
        · subst hh; exact hsr.2
        · exact i4 q hh
      · subst h3
        rw [← h2, i5, hcc1]
        simp [List.length_append]
        omega
      · subst h3
        intro q hq
        rcases List.mem_append.mp hq with hh | hh
        · have := hrecs q hh
          simp only [List.length_cons]
          omega
        · have := i6 q hh
          simp only [List.length_cons]
          omega
      · subst h3
        rw [List.filter_append]
        have hnil : recs.filter (fun q => q.step == i + (sr :: suf).length + 1) = [] := by
          apply filter_eq_nil_of_false
          intro q hq
          have := hrecs q hq
          simp only [this, List.length_cons]
          simp only [beq_eq_false_iff_ne, ne_eq]
          omega
        rw [hnil, List.nil_append, ← harith]
        exact i7
      · subst h3
        intro q hq hstep
        rcases List.mem_append.mp hq with hh | hh
        · have := hrecs q hh
          rw [this] at hstep
          simp only [List.length_cons] at hstep
          omega
        · exact i8 q hh (by rw [hstep, ← harith])
    · rename_i estep cc1 recs heq
      simp only [Prod.mk.injEq, SeqOutcome.failure.injEq] at h
      obtain ⟨⟨hmsg, hres⟩, hcc, htr⟩ := h
      have hrecs : ∀ q ∈ recs, q.step = i + 1 := by
        intro q hq
        exact stepLoop_recs llm mr i st cur (mr + 1) 0 cc q (by rw [heq]; exact hq)
      have herr := stepLoop_error_recs llm mr i st cur (mr + 1) 0 cc estep cc1 recs
        (by omega) heq
      refine ⟨[], estep, ?_, ?_, ?_, ?_, ?_, ?_, ?_, ?_⟩
      · rw [← hres]; simp
      · rw [← hmsg]; rfl
      · intro j q hj; simp at hj
      · intro q hq; simp at hq
      · rw [← hcc, ← htr]
        have := stepLoop_cc llm mr i st cur (mr + 1) 0 cc
        rw [heq] at this
        exact this
      · intro q hq
        rw [← htr] at hq
        have := hrecs q hq
        omega
      · rw [← htr]
        have hall : recs.filter (fun q => q.step == i + List.length ([] : List StepResult) + 1) = recs := by
          apply filter_eq_self_of_true
          intro q hq
          have := hrecs q hq
          simp [this]
        rw [hall]
        exact herr.1
      · intro q hq _
        rw [← htr] at hq
        exact herr.2 q hq

lemma seqLoop_append (llm : Llm) (mr : Nat) :
    ∀ (s1 s2 : List Step) (i : Nat) (cur : String) (res0 : List StepResult) (cc : Nat),
      seqLoop llm mr (s1 ++ s2) i cur res0 cc =
        match seqLoop llm mr s1 i cur res0 cc with
        | (SeqOutcome.success res1 fin1, cc1, tr1) =>
          ((seqLoop llm mr s2 (i + s1.length) fin1 res1 cc1).1,
           (seqLoop llm mr s2 (i + s1.length) fin1 res1 cc1).2.1,
           tr1 ++ (seqLoop llm mr s2 (i + s1.length) fin1 res1 cc1).2.2)
        | (SeqOutcome.failure e resF, cc1, tr1) => (SeqOutcome.failure e resF, cc1, tr1) := by
  intro s1
  induction s1 with
  | nil =>
    intro s2 i cur res0 cc
    simp [seqLoop]
  | cons st rest ih =>
    intro s2 i cur res0 cc
    simp only [List.cons_append, seqLoop]
    cases hsl : stepLoop llm mr i st cur 0 cc (mr + 1) with
    | mk fst snd =>
      cases fst with
      | ok sr =>
        simp only [List.append_eq]
        rw [ih s2 (i + 1) sr.output (res0 ++ [sr]) snd.1]
        cases hrec : seqLoop llm mr rest (i + 1) sr.output (res0 ++ [sr]) snd.1 with
        | mk o1 rest1 =>
          cases o1 with
          | success res1 fin1 =>
            simp only [List.length_cons]
            have : i + 1 + rest.length = i + (rest.length + 1) := by omega
            rw [this, List.append_assoc]
          | failure e resF =>
            simp only
      | error e =>
        simp only

/-! ### Lemmas about validator dispatch and the parallel executor -/

lemma runNamedValidators_spec (i : Nat) (out : String) :
    ∀ vs : List (String × (String → Bool)),
      (runNamedValidators i out vs).1 =
        takeThroughFirstFail (vs.map fun p => (p.1, p.2 out)) ∧
      ((runNamedValidators i out vs).2 = none ↔ ∀ p ∈ vs, p.2 out = true) := by
  intro vs
  induction vs with
  | nil => simp [runNamedValidators, takeThroughFirstFail]
  | cons p rest ih =>
    rcases p with ⟨nm, f⟩
    by_cases hf : f out = true
    · constructor
      · simp only [runNamedValidators, hf, if_true, List.map_cons, takeThroughFirstFail]
        simp [hf, ih.1]
      · simp only [runNamedValidators, hf, if_true]
        simp only [List.mem_cons]
        constructor
        · intro h2 q hq
          rcases hq with hq | hq
          · subst hq; exact hf
          · exact (ih.2.mp h2) q hq
        · intro h2
          exact ih.2.mpr fun q hq => h2 q (Or.inr hq)
    · have hf' : f out = false := by simpa using hf
      constructor
      · simp [runNamedValidators, hf', takeThroughFirstFail]
      · simp only [runNamedValidators, hf', Bool.false_eq_true, if_false]
        constructor
        · intro h2; simp at h2
        · intro h2
          have := h2 (nm, f) (by simp)
          simp [hf'] at this

lemma takeThroughFirstFail_of_all :
    ∀ l : List (String × Bool), (∀ p ∈ l, p.2 = true) → takeThroughFirstFail l = l := by
  intro l
  induction l with
  | nil => intro _; rfl
  | cons p rest ih =>
    intro h
    have hp := h p (by simp)
    simp [takeThroughFirstFail, hp]
    exact ih fun q hq => h q (by simp [hq])

lemma run_single_prompt_name (llm : PLlm) (doc nm tpl : String) :
    (run_single_prompt llm doc nm tpl).name = nm := by
  simp only [run_single_prompt]
  split <;> rfl

lemma execute_parallel_chains_ok {llm : PLlm} {tasks : List (String × String)}
    {doc : String} {synth : Option String} {out : ParallelOutcome} {sc : Bool}
    (h : execute_parallel_chains llm tasks doc synth = Except.ok (out, sc)) :
    tasks.length ≠ 0 ∧ (out, sc) = parallelBody llm tasks doc synth := by
  by_cases h0 : tasks.length = 0
  · rw [execute_parallel_chains, if_pos h0] at h
    exact absurd h (by simp)
  · rw [execute_parallel_chains, if_neg h0] at h
    refine ⟨h0, ?_⟩
    rw [Except.ok.injEq] at h
    rw [h]

lemma parallelBody_success (llm : PLlm) (tasks : List (String × String)) (doc : String)
    (synth : Option String) : (parallelBody llm tasks doc synth).1.success = true := rfl

lemma parallelBody_details (llm : PLlm) (tasks : List (String × String)) (doc : String)
    (synth : Option String) :
    (parallelBody llm tasks doc synth).1.execution_details =
      tasks.map (fun p => run_single_prompt llm doc p.1 p.2) := rfl

lemma parallelBody_results (llm : PLlm) (tasks : List (String × String)) (doc : String)
    (synth : Option String) :
    (parallelBody llm tasks doc synth).1.parallel_results =
      (tasks.map (fun p => run_single_prompt llm doc p.1 p.2)).map
        (fun r => (r.name, r.result)) := rfl

lemma parallelBody_scount (llm : PLlm) (tasks : List (String × String)) (doc : String)
    (synth : Option String) :
    (parallelBody llm tasks doc synth).1.successful_count =
      (((tasks.map (fun p => run_single_prompt llm doc p.1 p.2)).filter
        (fun r => r.success)).map (fun r => (r.name, r.result))).length := rfl

lemma parallelBody_fcount (llm : PLlm) (tasks : List (String × String)) (doc : String)
    (synth : Option String) :
    (parallelBody llm tasks doc synth).1.failed_count =
      (tasks.map (fun p => run_single_prompt llm doc p.1 p.2)).length -
        (((tasks.map (fun p => run_single_prompt llm doc p.1 p.2)).filter
          (fun r => r.success)).map (fun r => (r.name, r.result))).length := rfl

lemma parallelBody_syn_none (llm : PLlm) (tasks : List (String × String)) (doc : String)
    (synth : Option String)
    (h : ((tasks.map (fun p => run_single_prompt llm doc p.1 p.2)).filter
      (fun r => r.success)).map (fun r => (r.name, r.result)) = []) :
    (parallelBody llm tasks doc synth).1.synthesis = none ∧
      (parallelBody llm tasks doc synth).2 = false := by
  cases synth with
  | none => exact ⟨rfl, rfl⟩
  | some st =>
    constructor <;>
    · simp only [parallelBody, h]
      simp

/-! ### Claim theorems -/

/-- Claim C1: for every sequential chain run over a list of steps that
returns success, the returned results list has exactly one entry per step
in order (its length equals the number of steps and the entry at index j
records step j+1), and the returned final output equals the output field
of the last entry of the results list. -/
theorem c1_sequential_success_shape (llm : Llm) (mr : Nat) (steps : List Step)
    (inp : String) (res : List StepResult) (fin : String)
    (h : (execute_sequential_chain llm mr steps inp).1 = SeqOutcome.success res fin) :
    res.length = steps.length ∧
    (∀ j r, res.get? j = some r → r.step = j + 1) ∧
    (∀ last, res.getLast? = some last → fin = last.output) := by
  have hfull : seqLoop llm mr steps 0 inp [] 0 =
      (SeqOutcome.success res fin, (execute_sequential_chain llm mr steps inp).2.1,
       (execute_sequential_chain llm mr steps inp).2.2) := by
    rw [← h]
    rfl
  obtain ⟨suf, i1, i2, i3, i4, i5, i6, i7, i8⟩ :=
    seqLoop_success llm mr steps 0 inp [] 0 res fin _ _ hfull
  simp only [List.nil_append] at i1
  subst i1
  refine ⟨i2, ?_, i6⟩
  intro j r hj
  have := i3 j r hj
  omega

/-- Witness for C1 at a concrete run: the echoing generation function over
two plain steps succeeds with one result entry per step. -/
theorem c1_witness :
    (execute_sequential_chain okLlm 3 [plainStep, plainStep] "in").1 =
      SeqOutcome.success c1resList "OUT:OUT:in" ∧
    c1resList.length = [plainStep, plainStep].length := by
  refine ⟨rfl, ?_⟩
  exact (c1_sequential_success_shape okLlm 3 [plainStep, plainStep] "in" c1resList
    "OUT:OUT:in" rfl).1

/-- Claim C9: for every initial input string, running the sequential chain
with an empty step list returns a success outcome whose results list is
empty and whose final output equals the initial input unchanged (and makes
no generation call). -/
theorem c9_empty_steps_identity (llm : Llm) (mr : Nat) (inp : String) :
    execute_sequential_chain llm mr [] inp = (SeqOutcome.success [] inp, 0, []) := rfl

/-- Claim C3: in every sequential run the recorded retry count of any
recorded (successful) step never exceeds the maximum-retries count; each
attempt record corresponds to exactly one invocation of the generation
callable (the invocation count equals the trace length); and when the run
fails, the failing step (index one past the recorded results) was
attempted exactly max-retries-plus-one times, every one of them failing. -/
theorem c3_retry_and_attempt_counts (llm : Llm) (mr : Nat) (steps : List Step)
    (inp : String) :
    (∀ r ∈ (execute_sequential_chain llm mr steps inp).1.resultsList, r.retry_count ≤ mr) ∧
    (execute_sequential_chain llm mr steps inp).2.1 =
      ((execute_sequential_chain llm mr steps inp).2.2).length ∧
    (∀ e resF, (execute_sequential_chain llm mr steps inp).1 = SeqOutcome.failure e resF →
      (((execute_sequential_chain llm mr steps inp).2.2).filter
        (fun r => r.step == resF.length + 1)).length = mr + 1 ∧
      (∀ r ∈ (execute_sequential_chain llm mr steps inp).2.2,
        r.step = resF.length + 1 → r.success = false)) := by
  cases hout : (execute_sequential_chain llm mr steps inp).1 with
  | success res fin =>
    have hfull : seqLoop llm mr steps 0 inp [] 0 =
        (SeqOutcome.success res fin, (execute_sequential_chain llm mr steps inp).2.1,
         (execute_sequential_chain llm mr steps inp).2.2) := by
      rw [← hout]
      rfl
    obtain ⟨suf, i1, i2, i3, i4, i5, i6, i7, i8⟩ :=
      seqLoop_success llm mr steps 0 inp [] 0 res fin _ _ hfull
    refine ⟨?_, by simpa using i7, ?_⟩
    · intro r hr
      simp only [SeqOutcome.resultsList] at hr
      rw [i1] at hr
      exact i4 r (by simpa using hr)
    · intro e resF hf
      exact absurd hf (by simp)
  | failure e0 resF0 =>
    have hfull : seqLoop llm mr steps 0 inp [] 0 =
        (SeqOutcome.failure e0 resF0, (execute_sequential_chain llm mr steps inp).2.1,
         (execute_sequential_chain llm mr steps inp).2.2) := by
      rw [← hout]
      rfl
    obtain ⟨suf, e1, j1, j2, j3, j4, j5, j6, j7, j8⟩ :=
      seqLoop_failure llm mr steps 0 inp [] 0 e0 resF0 _ _ hfull
    simp only [List.nil_append] at j1
    simp only [Nat.zero_add] at j7 j8
    refine ⟨?_, by simpa using j5, ?_⟩
    · intro r hr
      simp only [SeqOutcome.resultsList] at hr
      rw [j1] at hr
      exact j4 r hr
    · intro e resF hf
      rw [SeqOutcome.failure.injEq] at hf
      obtain ⟨-, hres⟩ := hf
      rw [← hres, j1]
      exact ⟨j7, j8⟩

/-- Witness for C3 at a concrete run: a generation function that always
raises, with max retries 2, fails the single step after exactly 3 recorded
attempts at step 1. -/
theorem c3_witness :
    (execute_sequential_chain errLlm 2 [plainStep] "x").1 =
      SeqOutcome.failure "Chain failed at step 1 after 3 attempts: boom" [] ∧
    (((execute_sequential_chain errLlm 2 [plainStep] "x").2.2).filter
      (fun r => r.step == 1)).length = 3 := by
  refine ⟨rfl, ?_⟩
  exact ((c3_retry_and_attempt_counts errLlm 2 [plainStep] "x").2.2
    "Chain failed at step 1 after 3 attempts: boom" [] rfl).1

/-- Claim C2: for every sequential run in which step k (1-indexed, here
k = pre.length + 1) fails on every attempt after the first k-1 steps
succeeded, the run returns a failure outcome whose results list contains
exactly the k-1 entries of the completed steps (in order, entry j
recording step j+1), whose error message identifies step k, and whose
attempt trace shows step k attempted exactly max-retries-plus-one times
with all attempts failing — the steps after k are never attempted. -/
theorem c2_always_failing_step (llm : Llm) (mr : Nat) (pre post : List Step)
    (stepk : Step) (inp : String) (resPre : List StepResult) (v : String)
    (cc : Nat) (trPre : List AttemptRecord)
    (hpre : execute_sequential_chain llm mr pre inp =
      (SeqOutcome.success resPre v, cc, trPre))
    (hfail : ∀ c, exceptOk (attempt llm pre.length stepk v c).res = false) :
    ∃ e recs,
      execute_sequential_chain llm mr (pre ++ stepk :: post) inp =
        (SeqOutcome.failure ("Chain failed at step " ++ toString (pre.length + 1) ++
          " after " ++ toString (mr + 1) ++ " attempts: " ++ e) resPre,
         cc + recs.length, trPre ++ recs) ∧
      resPre.length = pre.length ∧
      (∀ j r, resPre.get? j = some r → r.step = j + 1) ∧
      recs.length = mr + 1 ∧
      (∀ r ∈ recs, r.step = pre.length + 1 ∧ r.success = false) ∧
      (∀ r ∈ trPre, r.step ≤ pre.length) := by
  have hpre' : seqLoop llm mr pre 0 inp [] 0 = (SeqOutcome.success resPre v, cc, trPre) :=
    hpre
  have happ := seqLoop_append llm mr pre (stepk :: post) 0 inp [] 0
  simp only [hpre', Nat.zero_add] at happ
  have hsl := stepLoop_allfail llm mr pre.length stepk v hfail (mr + 1) 0 cc
  cases hres : (stepLoop llm mr pre.length stepk v 0 cc (mr + 1)).1 with
  | ok sr =>
    rw [hres] at hsl
    simp [exceptOk] at hsl
  | error e =>
    have hfull : stepLoop llm mr pre.length stepk v 0 cc (mr + 1) =
        (Except.error e, (stepLoop llm mr pre.length stepk v 0 cc (mr + 1)).2.1,
         (stepLoop llm mr pre.length stepk v 0 cc (mr + 1)).2.2) := by
      rw [← hres]
    have hseq : seqLoop llm mr (stepk :: post) pre.length v resPre cc =
        (SeqOutcome.failure ("Chain failed at step " ++ toString (pre.length + 1) ++
          " after " ++ toString (mr + 1) ++ " attempts: " ++ e) resPre,
         (stepLoop llm mr pre.length stepk v 0 cc (mr + 1)).2.1,
         (stepLoop llm mr pre.length stepk v 0 cc (mr + 1)).2.2) := by
      rw [seqLoop]
      rw [hfull]
    rw [hseq] at happ
    have hcc := stepLoop_cc llm mr pre.length stepk v (mr + 1) 0 cc
    have herr := stepLoop_error_recs llm mr pre.length stepk v (mr + 1) 0 cc e _ _
      (by omega) hfull
    obtain ⟨suf, p1, p2, p3, p4, p5, p6, p7, p8⟩ :=
      seqLoop_success llm mr pre 0 inp [] 0 resPre v cc trPre hpre'
    simp only [List.nil_append] at p1
    refine ⟨e, (stepLoop llm mr pre.length stepk v 0 cc (mr + 1)).2.2, ?_, ?_, ?_, ?_, ?_, ?_⟩
    · rw [show execute_sequential_chain llm mr (pre ++ stepk :: post) inp =
          seqLoop llm mr (pre ++ stepk :: post) 0 inp [] 0 from rfl, happ, ← hcc]
    · rw [p1, p2]
    · intro j r hj
      rw [p1] at hj
      have := p3 j r hj
      omega
    · exact herr.1
    · intro r hr
      exact ⟨stepLoop_recs llm mr pre.length stepk v (mr + 1) 0 cc r hr, herr.2 r hr⟩
    · intro r hr
      have := p8 r hr
      omega

/-- Witness for C2 at a concrete run: a middle step whose validator always
returns false, between two plain steps, with max retries 1. -/
theorem c2_witness :
    execute_sequential_chain okLlm 1 ([plainStep] ++ falseStep :: [plainStep]) "in" =
      (SeqOutcome.failure
        "Chain failed at step 2 after 2 attempts: Step 2 validation failed"
        c2preRes, 3, c2trace) ∧
    c2preRes.length = [plainStep].length := by
  refine ⟨rfl, ?_⟩
  obtain ⟨e, recs, -, hlen, -, -, -, -⟩ :=
    c2_always_failing_step okLlm 1 [plainStep] [plainStep] falseStep "in" c2preRes
      "OUT:in" 1 c2preTrace rfl (fun c => rfl)
  exact hlen

/-- Counterexample to C4 as stated: a step supplying two named validators
whose first always fails.  The single attempt of the run invokes (and
records a verdict pair for) only 1 of the 2 supplied validators, because
the source raises at the first failing validator and never reaches the
second. -/
theorem c4_counterexample :
    ((execute_sequential_chain (fun _ _ _ => Except.ok "x") 0 [cxStep] "in").2.2.map
      (fun r => r.vpairs.length)) = [1] ∧
    ([("a", alwaysFalse), ("b", alwaysTrue)] :
      List (String × (String → Bool))).length = 2 := ⟨rfl, rfl⟩

/-- Amended C4: on each attempt whose generation call returns, the
executor runs the supplied named validators in order only up to and
including the first failing one (recording one (name, passed) pair per
validator actually run); when all validators pass, one pair per supplied
validator is recorded.  The attempt succeeds iff the generation call
returns and every validator passes; a generation raise fails the attempt
with no validator run. -/
theorem c4_validators_short_circuit (llm : Llm) (i : Nat) (st : Step) (input : String)
    (c : Nat) (vs : List (String × (String → Bool))) (hv : st.validators = some vs) :
    (∀ out, llm c st.template input = Except.ok out →
      (attempt llm i st input c).vpairs =
        takeThroughFirstFail (vs.map fun p => (p.1, p.2 out)) ∧
      (exceptOk (attempt llm i st input c).res = true ↔ ∀ p ∈ vs, p.2 out = true) ∧
      ((∀ p ∈ vs, p.2 out = true) →
        (attempt llm i st input c).vpairs.length = vs.length)) ∧
    (∀ e, llm c st.template input = Except.error e →
      (attempt llm i st input c).res = Except.error e ∧
      (attempt llm i st input c).vpairs = []) := by
  constructor
  · intro out hok
    have hs := runNamedValidators_spec i out vs
    simp only [attempt, hok, hv]
    cases hrun : runNamedValidators i out vs with
    | mk pairs err =>
      rw [hrun] at hs
      simp only at hs
      cases err with
      | none =>
        simp only
        refine ⟨hs.1, ?_, ?_⟩
        · simp only [exceptOk, true_iff]
          exact hs.2.mp rfl
        · intro hall
          rw [hs.1, takeThroughFirstFail_of_all]
          · simp
          · intro p hp
            obtain ⟨q, hq, hqe⟩ := List.mem_map.mp hp
            rw [← hqe]
            exact hall q hq
      | some e2 =>
        simp only
        refine ⟨hs.1, ?_, ?_⟩
        · simp only [exceptOk, Bool.false_eq_true, false_iff]
          intro hall
          have := hs.2.mpr hall
          simp at this
        · intro hall
          have := hs.2.mpr hall
          simp at this
  · intro e herr
    simp [attempt, herr, exceptOk]

/-- Witness for the amended C4: with two validators that both pass, the
attempt records one pair per supplied validator. -/
theorem c4_witness :
    (attempt okLlm 0 twoValStep "in" 0).vpairs.length =
      ([("a", alwaysTrue), ("b", alwaysTrue)] :
        List (String × (String → Bool))).length := by
  have h := c4_validators_short_circuit okLlm 0 twoValStep "in" 0
    [("a", alwaysTrue), ("b", alwaysTrue)] rfl
  refine (h.1 "OUT:in" rfl).2.2 ?_
  intro p hp
  simp only [List.mem_cons, List.not_mem_nil, or_false] at hp
  rcases hp with rfl | rfl <;> rfl

/-- Counterexample to C5 as stated: calling the parallel run method with
an empty task mapping raises (the worker pool constructor rejects a
worker count of zero), so a public run method can raise. -/
theorem c5_counterexample :
    execute_parallel_chains pOkLlm [] "d" none =
      Except.error "max_workers must be greater than 0" := rfl

/-- Amended C5: the sequential run method never raises (it is total into
the outcome type), and the parallel run method never raises for any
non-empty task mapping — but with an empty task mapping it raises a
ValueError from the worker-pool constructor instead of returning an
outcome. -/
theorem c5_no_raise_nonempty (llm : PLlm) (tasks : List (String × String))
    (doc : String) (synth : Option String) (h : tasks ≠ []) :
    exceptOk (execute_parallel_chains llm tasks doc synth) = true := by
  rw [execute_parallel_chains, if_neg (by simpa [List.length_eq_zero] using h)]
  rfl

/-- Witness for the amended C5 at a concrete non-empty task mapping. -/
theorem c5_witness :
    exceptOk (execute_parallel_chains pOkLlm [("a", "t")] "d" none) = true :=
  c5_no_raise_nonempty pOkLlm [("a", "t")] "d" none (by simp)

/-- Claim C6: in every parallel run that returns and in which zero tasks
succeed, no synthesis invocation of the generation callable is made and
the returned synthesis field is empty (None) rather than raising. -/
theorem c6_zero_success_skips_synthesis (llm : PLlm) (tasks : List (String × String))
    (doc : String) (synth : Option String) (out : ParallelOutcome) (sc : Bool)
    (h : execute_parallel_chains llm tasks doc synth = Except.ok (out, sc))
    (h0 : out.successful_count = 0) :
    out.synthesis = none ∧ sc = false := by
  obtain ⟨-, hbody⟩ := execute_parallel_chains_ok h
  have hcnt : out.successful_count = (parallelBody llm tasks doc synth).1.successful_count := by
    rw [← hbody]
  have hnil : ((tasks.map (fun p => run_single_prompt llm doc p.1 p.2)).filter
      (fun r => r.success)).map (fun r => (r.name, r.result)) = [] := by
    rw [hcnt, parallelBody_scount] at h0
    exact List.length_eq_zero.mp h0
  have hsyn : out.synthesis = (parallelBody llm tasks doc synth).1.synthesis := by
    rw [← hbody]
  have hsc : sc = (parallelBody llm tasks doc synth).2 := by
    rw [← hbody]
  have := parallelBody_syn_none llm tasks doc synth hnil
  exact ⟨by rw [hsyn, this.1], by rw [hsc, this.2]⟩

/-- Witness for C6 at a concrete run: one task that raises, a synthesis
template supplied, zero successes — synthesis stays empty and no
synthesis call is made. -/
theorem c6_witness : pErrOutcome.synthesis = none ∧ false = false :=
  c6_zero_success_skips_synthesis pErrLlm [("a", "t")] "d" (some "s")
    pErrOutcome false rfl rfl

/-- Claim C7: for every parallel run that returns (the task names are dict
keys, hence distinct), the key list of the returned per-task result
mapping equals exactly the caller-supplied task-name list, and the
returned counts of successful and failed tasks sum to the number of
submitted tasks. -/
theorem c7_key_set_and_counts (llm : PLlm) (tasks : List (String × String))
    (doc : String) (synth : Option String) (out : ParallelOutcome) (sc : Bool)
    (_hnd : (tasks.map Prod.fst).Nodup)
    (h : execute_parallel_chains llm tasks doc synth = Except.ok (out, sc)) :
    out.parallel_results.map Prod.fst = tasks.map Prod.fst ∧
    out.successful_count + out.failed_count = tasks.length := by
  obtain ⟨-, hbody⟩ := execute_parallel_chains_ok h
  constructor
  · have h1 : out.parallel_results = (parallelBody llm tasks doc synth).1.parallel_results := by
      rw [← hbody]
    rw [h1, parallelBody_results, List.map_map, List.map_map]
    apply List.map_congr_left
    intro p _
    simp [Function.comp, run_single_prompt_name]
  · have h2 : out.successful_count = (parallelBody llm tasks doc synth).1.successful_count := by
      rw [← hbody]
    have h3 : out.failed_count = (parallelBody llm tasks doc synth).1.failed_count := by
      rw [← hbody]
    rw [h2, h3, parallelBody_scount, parallelBody_fcount]
    have hle : ((tasks.map (fun p => run_single_prompt llm doc p.1 p.2)).filter
        (fun r => r.success)).length ≤ tasks.length := by
      calc ((tasks.map (fun p => run_single_prompt llm doc p.1 p.2)).filter
          (fun r => r.success)).length
          ≤ (tasks.map (fun p => run_single_prompt llm doc p.1 p.2)).length :=
            List.length_filter_le _ _
        _ = tasks.length := List.length_map _ _
    simp only [List.length_map]
    omega

/-- Witness for C7 at a concrete run: tasks a (ok) and b (raises) — keys
are preserved and 1 success plus 1 failure equals 2 tasks. -/
theorem c7_witness :
    pMixOutcome.parallel_results.map Prod.fst =
      ([("a", "ta"), ("b", "tb")] : List (String × String)).map Prod.fst ∧
    pMixOutcome.successful_count + pMixOutcome.failed_count =
      ([("a", "ta"), ("b", "tb")] : List (String × String)).length :=
  c7_key_set_and_counts pMixLlm [("a", "ta"), ("b", "tb")] "d" none
    pMixOutcome false (by decide) rfl

/-- Claim C8: in every parallel run that returns, the entry for each task
equals the result of running that task alone against the generation
callable (so one task's failure cannot affect a sibling's entry), and a
task whose generation call raises is recorded as a failed entry whose
result text carries the error message. -/
theorem c8_task_failure_isolated (llm : PLlm) (tasks : List (String × String))
    (doc : String) (synth : Option String) (out : ParallelOutcome) (sc : Bool)
    (j : Nat) (nm tpl : String)
    (h : execute_parallel_chains llm tasks doc synth = Except.ok (out, sc))
    (hj : tasks.get? j = some (nm, tpl)) :
    out.execution_details.get? j = some (run_single_prompt llm doc nm tpl) ∧
    (∀ e, llm tpl [("document", doc)] = Except.error e →
      out.execution_details.get? j =
        some { name := nm, result := "Error: " ++ e, success := false,
               output_length := none, error := some e }) := by
  obtain ⟨-, hbody⟩ := execute_parallel_chains_ok h
  have hdet : out.execution_details = (parallelBody llm tasks doc synth).1.execution_details := by
    rw [← hbody]
  rw [hdet, parallelBody_details]
  have hget : (tasks.map (fun p => run_single_prompt llm doc p.1 p.2)).get? j =
      some (run_single_prompt llm doc nm tpl) := by
    rw [List.get?_eq_getElem?, List.getElem?_map, ← List.get?_eq_getElem?, hj]
    rfl
  refine ⟨hget, ?_⟩
  intro e he
  rw [hget]
  simp [run_single_prompt, he]

/-- Witness for C8 at the example scenario: tasks a (ok) and b (raises) —
the entry for b is a failed record carrying the error text. -/
theorem c8_witness :
    pMixOutcome.execution_details.get? 1 =
      some { name := "b", result := "Error: boom", success := false,
             output_length := none, error := some "boom" } :=
  (c8_task_failure_isolated pMixLlm [("a", "ta"), ("b", "tb")] "d" none
    pMixOutcome false 1 "b" "tb" rfl rfl).2 "boom" rfl

/-- Claim C10: every parallel run that returns has its top-level success
flag set to true unconditionally — even when every submitted task fails —
so per-task failure is visible only through the failed count and the
per-task entries. -/
theorem c10_success_flag_always_true (llm : PLlm) (tasks : List (String × String))
    (doc : String) (synth : Option String) (out : ParallelOutcome) (sc : Bool)
    (h : execute_parallel_chains llm tasks doc synth = Except.ok (out, sc)) :
    out.success = true := by
  obtain ⟨-, hbody⟩ := execute_parallel_chains_ok h
  have h1 : out.success = (parallelBody llm tasks doc synth).1.success := by
    rw [← hbody]
  rw [h1, parallelBody_success]

/-- Witness for C10 at a concrete run in which the only task fails: the
top-level flag is still true. -/
theorem c10_witness : pErrOutcome.success = true :=
  c10_success_flag_always_true pErrLlm [("a", "t")] "d" (some "s")
    pErrOutcome false rfl

end PromptChain
